import Mathlib

/-!
Verification of the goldboot VNC automation engine
(`src/goldboot-core/src/vnc.rs`).

The Rust code is shallowly embedded: pixel buffers are `List Nat` of
bytes, the `u16` screenshot and rectangle fields are `Nat` (all index
arithmetic in the source happens in `usize`, which never overflows for
`u16`-bounded operands), fallible operations return `Option`/`Except`,
and a Rust panic (out-of-bounds slice index, or an infinite loop whose
input stream is exhausted) is modelled as `Option.none`.
-/

set_option maxRecDepth 10000

/-- The `vnc::Rect` structure: `top`, `left`, `width`, `height` (u16 in Rust,
embedded as `Nat`). -/
structure VRect where
  top : Nat
  left : Nat
  width : Nat
  height : Nat
deriving DecidableEq, Repr

/-- The `VncScreenshot` structure from `vnc.rs`: raw pixel bytes plus
dimensions. -/
structure VncScreenshot where
  data : List Nat
  width : Nat
  height : Nat
deriving DecidableEq, Repr

/-! ## SHA-1 (the `sha1` crate used by `VncScreenshot::hash`)

A direct executable implementation of FIPS 180 SHA-1 over byte lists,
with 32-bit words represented as `Nat` reduced mod `2^32`. -/

/-- Rotate a 32-bit word left by `s` bits. -/
def rotl32 (x s : Nat) : Nat :=
  ((x <<< s) % 4294967296) ||| (x >>> (32 - s))

/-- Big-endian 8-byte encoding of a 64-bit length. -/
def be64 (n : Nat) : List Nat :=
  [(n >>> 56) % 256, (n >>> 48) % 256, (n >>> 40) % 256, (n >>> 32) % 256,
   (n >>> 24) % 256, (n >>> 16) % 256, (n >>> 8) % 256, n % 256]

/-- Big-endian 4-byte encoding of a 32-bit word. -/
def be32 (n : Nat) : List Nat :=
  [(n >>> 24) % 256, (n >>> 16) % 256, (n >>> 8) % 256, n % 256]

/-- SHA-1 padding: append `0x80`, zero bytes to reach 56 mod 64, then the
bit length as a big-endian 64-bit integer. -/
def sha1pad (msg : List Nat) : List Nat :=
  let L := msg.length
  let z := (120 - ((L + 1) % 64)) % 64
  msg ++ [128] ++ List.replicate z 0 ++ be64 (8 * L)

/-- Split a list into chunks of 64 bytes; the first argument is fuel,
structural so that the kernel can evaluate it (any fuel at least the
number of chunks gives the same result). -/
def chunks64fuel : Nat → List Nat → List (List Nat)
  | 0, _ => []
  | _, [] => []
  | fuel + 1, l => l.take 64 :: chunks64fuel fuel (l.drop 64)

/-- Split a list into chunks of 64 bytes. -/
def chunks64 (l : List Nat) : List (List Nat) :=
  chunks64fuel l.length l

/-- Combine four bytes into one big-endian 32-bit word. -/
def word32 (b0 b1 b2 b3 : Nat) : Nat :=
  b0 * 16777216 + b1 * 65536 + b2 * 256 + b3

/-- The 16 initial 32-bit words of one 64-byte block. -/
def blockWords (b : List Nat) : List Nat :=
  (List.range 16).map fun i =>
    word32 (b.getD (4 * i) 0) (b.getD (4 * i + 1) 0)
      (b.getD (4 * i + 2) 0) (b.getD (4 * i + 3) 0)

/-- Append one word of the SHA-1 message schedule. -/
def extendStep (ws : List Nat) : List Nat :=
  let n := ws.length
  ws ++ [rotl32 (((ws.getD (n - 3) 0) ^^^ (ws.getD (n - 8) 0)) ^^^
    ((ws.getD (n - 14) 0) ^^^ (ws.getD (n - 16) 0))) 1]

/-- Extend the message schedule by `k` further words. -/
def extendWords (ws : List Nat) : Nat → List Nat
  | 0 => ws
  | k + 1 => extendWords (extendStep ws) k

/-- The SHA-1 round function, by round index. -/
def sha1f (i b c d : Nat) : Nat :=
  if i < 20 then (b &&& c) ||| ((b ^^^ 4294967295) &&& d)
  else if i < 40 then (b ^^^ c) ^^^ d
  else if i < 60 then ((b &&& c) ||| (b &&& d)) ||| (c &&& d)
  else (b ^^^ c) ^^^ d

/-- The SHA-1 round constant, by round index. -/
def sha1k (i : Nat) : Nat :=
  if i < 20 then 1518500249
  else if i < 40 then 1859775393
  else if i < 60 then 2400959708
  else 3395469782

/-- One SHA-1 round: update the five-word working state. -/
def sha1round (st : Nat × Nat × Nat × Nat × Nat) (iw : Nat × Nat) :
    Nat × Nat × Nat × Nat × Nat :=
  match st, iw with
  | (a, b, c, d, e), (i, w) =>
    let t := (rotl32 a 5 + sha1f i b c d + e + sha1k i + w) % 4294967296
    (t, a, rotl32 b 30, c, d)

/-- Process one 64-byte block: run 80 rounds and add into the hash state. -/
def sha1block (h : Nat × Nat × Nat × Nat × Nat) (b : List Nat) :
    Nat × Nat × Nat × Nat × Nat :=
  match h with
  | (h0, h1, h2, h3, h4) =>
    let ws := extendWords (blockWords b) 64
    match (ws.enum).foldl sha1round (h0, h1, h2, h3, h4) with
    | (a, bb, c, d, e) =>
      ((h0 + a) % 4294967296, (h1 + bb) % 4294967296, (h2 + c) % 4294967296,
       (h3 + d) % 4294967296, (h4 + e) % 4294967296)

/-- SHA-1 digest of a byte list, as a list of 20 bytes. -/
def sha1 (msg : List Nat) : List Nat :=
  match (chunks64 (sha1pad msg)).foldl sha1block
      (1732584193, 4023233417, 2562383102, 271733878, 3285377520) with
  | (h0, h1, h2, h3, h4) =>
    be32 h0 ++ be32 h1 ++ be32 h2 ++ be32 h3 ++ be32 h4

/-- Lowercase hexadecimal digit. -/
def hexChar (n : Nat) : Char :=
  if n < 10 then Char.ofNat (48 + n) else Char.ofNat (87 + n)

/-- Lowercase hexadecimal encoding of a byte list (the `hex` crate's
`hex::encode`). -/
def hexEncode (bytes : List Nat) : String :=
  String.mk (bytes.flatMap fun b => [hexChar (b / 16), hexChar (b % 16)])

/-- `VncScreenshot::hash`: `hex::encode(Sha1::new().chain_update(&self.data).finalize())`.
Only the pixel bytes `data` feed the digest. -/
def VncScreenshot.hash (s : VncScreenshot) : String :=
  hexEncode (sha1 s.data)

/-! ## `VncScreenshot::trim`

The Rust source is

```
pub fn trim(&self, rect: vnc::Rect) -> Result<VncScreenshot, Box<dyn Error>> {
    let w = rect.width as usize;
    let h = rect.height as usize;
    let mut data = vec![0u8; w * h];
    for y in 0..rect.height as usize {
        for x in 0..rect.width as usize {
            data[y * w + x] = self.data
                [(y + rect.top as usize) * self.width as usize + (x + rect.left as usize)];
        }
    }
    Ok(VncScreenshot \x7b data, width: rect.width, height: rect.height \x7d)
}
```

The double loop fills all `w*h` destination cells in row-major order, so
the produced buffer is the row-major flattening of the `h` source rows.
The source index expression is an unchecked slice index: an out-of-range
index is a Rust panic, modelled as `none`.  The function never constructs
an `Err`, so the `Except.error` case of the codomain is never produced. -/

deriving instance DecidableEq for Except

/-- Map a fallible function over a list, short-circuiting on the first
failure (the behaviour of a Rust loop whose body can panic). -/
def mapOpt (f : α → Option β) : List α → Option (List β)
  | [] => some []
  | a :: l =>
    match f a with
    | none => none
    | some b =>
      match mapOpt f l with
      | none => none
      | some bs => some (b :: bs)

/-- One source row of `trim`: the `rect.width` bytes read by the inner
loop at destination row `y`; `none` when any index is out of range
(Rust panic). -/
def trimRow (s : VncScreenshot) (rect : VRect) (y : Nat) : Option (List Nat) :=
  mapOpt (fun x => s.data[(y + rect.top) * s.width + (x + rect.left)]?)
    (List.range rect.width)

/-- `VncScreenshot::trim`, embedded.  `none` models the out-of-bounds
panic; the Rust `Result` layer is kept as `Except String` (it is never
`error`). -/
def VncScreenshot.trim (s : VncScreenshot) (rect : VRect) :
    Option (Except String VncScreenshot) :=
  match mapOpt (trimRow s rect) (List.range rect.height) with
  | none => none
  | some rows => some (.ok ⟨rows.flatten, rect.width, rect.height⟩)

/-! ## The VNC event stream and `VncConnection::screenshot`

`vnc::client::Event` is restricted to the variants the dispatch loops
inspect; every other variant is collapsed into `other` (the `_ => bail!`
arm).  `poll_iter` is modelled by an environment-supplied list of
batches: each call to `poll_iter` yields the next batch of pending
events.  `screenshot` consumes one batch per `poll_iter` call; an
exhausted stream models a run in which the loop never terminates and is
returned as `none`. -/

/-- The `vnc::client::Event` variants inspected by `vnc.rs`. -/
inductive VncEvent where
  | resize (width height : Nat)
  | putPixels (rect : VRect) (pixels : List Nat)
  | endOfFrame
  | other
deriving DecidableEq, Repr

/-- The first `poll_iter` loop of `screenshot`: clear the framebuffer
but keep resize events, updating the dimensions. -/
def drainResizes (b : List VncEvent) (w h : Nat) : Nat × Nat :=
  b.foldl (fun p e => match e with | .resize w2 h2 => (w2, h2) | _ => p) (w, h)

/-- Result of dispatching one batch of polled events inside the
`screenshot` request loop. -/
inductive ScanResult where
  | found (shot : VncScreenshot) (width height : Nat)
  | nofind (width height : Nat)
  | err (msg : String)
deriving DecidableEq, Repr

/-- The inner `for event in self.vnc.poll_iter()` dispatch of
`screenshot`: resizes update the dimensions, a pixel block is returned
only when its rectangle equals `req` (the requested rectangle),
end-of-frame is skipped, and any other event is `bail!`. -/
def scanBatch (req : VRect) (w h : Nat) : List VncEvent → ScanResult
  | [] => .nofind w h
  | .resize w2 h2 :: rest => scanBatch req w2 h2 rest
  | .putPixels r px :: rest =>
      if r = req then .found ⟨px, r.width, r.height⟩ w h
      else scanBatch req w h rest
  | .endOfFrame :: rest => scanBatch req w h rest
  | .other :: _ => .err "VNC poll failed"

/-- The outer `loop` of `screenshot`: request a full-screen update sized
to the current dimensions, then dispatch the next batch of events.  The
result carries the screenshot together with the session dimensions at
return time. -/
def screenshotLoop : Nat → Nat → List (List VncEvent) →
    Option (Except String (VncScreenshot × Nat × Nat))
  | _, _, [] => none
  | w, h, b :: bs =>
    match scanBatch ⟨0, 0, w, h⟩ w h b with
    | .found s w2 h2 => some (.ok (s, w2, h2))
    | .nofind w2 h2 => screenshotLoop w2 h2 bs
    | .err e => some (.error e)

/-- `VncConnection::screenshot`: drain pending events (keeping resizes),
then run the request loop. -/
def screenshotRun (w h : Nat) (batches : List (List VncEvent)) :
    Option (Except String (VncScreenshot × Nat × Nat)) :=
  match batches with
  | [] => none
  | d :: rest =>
    match drainResizes d w h with
    | (w1, h1) => screenshotLoop w1 h1 rest

/-! ## Session state, observable actions and `VncCmd` -/

/-- The `VncCmd` enum from `vnc.rs`. -/
inductive VncCmd where
  | enter
  | spacebar
  | tab
  | leftSuper
  | type (text : String)
  | wait (seconds : Nat)
  | waitScreen (hash : String)
  | waitScreenRect (hash : String) (top left width height : Nat)
deriving DecidableEq, Repr

/-- The mutable `VncConnection` state together with its environment:
pending poll batches for each future `screenshot()` call and the stream
of values drawn from `rand::thread_rng`. -/
structure Sess where
  width : Nat
  height : Nat
  debug : Bool
  record : Bool
  shots : List (List (List VncEvent))
  rng : List Nat
deriving DecidableEq, Repr

/-- Observable effects of the engine: the breakpoint prompt, a key
press/release, a sleep (in milliseconds), a PNG file written, and a
completed screen capture. -/
inductive Act where
  | prompt (cmd : VncCmd)
  | key (down : Bool) (keysym : Nat)
  | sleepMs (ms : Nat)
  | png (path : String)
  | capture (shot : VncScreenshot)
deriving DecidableEq, Repr

/-- Sequencing of a fallible, panicking step: `none` (panic) and
`error` (the `?` operator) propagate, `ok` continues.  This is exactly
how the Rust control flow threads `Result` values through
`boot_command`. -/
def obind (x : Option (Except String α)) (f : α → Option (Except String β)) :
    Option (Except String β) :=
  match x with
  | none => none
  | some (.error e) => some (.error e)
  | some (.ok a) => f a

/-- A `self.screenshot()` call: consume the next bundle of poll batches
from the environment and update the session dimensions. -/
def captureShot (σ : Sess) : Option (Except String (VncScreenshot × Sess)) :=
  match σ.shots with
  | [] => none
  | bs :: rest =>
    obind (screenshotRun σ.width σ.height bs) fun t =>
      some (.ok (t.1, { σ with width := t.2.1, height := t.2.2, shots := rest }))

/-! ## The `Type` command (`sendText`) -/

/-- The fixed punctuation set that the `Type` arm sends with a shift
modifier. -/
def shiftPunct : List Char :=
  ['~', '!', '#', '$', '%', '^', '&', '*', '(', ')', '_', '+']

/-- Models Rust `char::is_uppercase` (the Unicode `Uppercase` property);
it coincides with it on the ASCII range, which covers every character
the repository feeds to `Type`. -/
def isUppercaseRust (c : Char) : Bool :=
  c.isUpper

/-- The events emitted for one character of a `Type` command: shifted
characters are wrapped in left-shift (0xffe1) down/up, the keysym is
`0x01000000 + codepoint`, and every character is followed by a fixed
200 ms sleep. -/
def typeChar (c : Char) : List Act :=
  (if isUppercaseRust c then
    [.key true 0xffe1, .key true (0x01000000 + c.toNat),
     .key false (0x01000000 + c.toNat), .key false 0xffe1]
  else if shiftPunct.contains c then
    [.key true 0xffe1, .key true (0x01000000 + c.toNat),
     .key false (0x01000000 + c.toNat), .key false 0xffe1]
  else
    [.key true (0x01000000 + c.toNat), .key false (0x01000000 + c.toNat)])
  ++ [.sleepMs 200]

/-- The full event sequence of `VncCmd::Type(text)`. -/
def typeText (text : String) : List Act :=
  text.toList.flatMap typeChar

/-! ## The screen-wait loops -/

/-- The `WaitScreen` polling loop: sleep a random 500–1000 ms jitter
(`rand::thread_rng().gen_range(500..1000)`, drawn from the `rng`
stream), capture, and return after a fixed 1 s settle sleep once a
capture's hash equals the target.  The fuel argument is structural so
the kernel can evaluate the loop; each iteration consumes one entry of
`σ.shots`, so `σ.shots.length` fuel is exact. -/
def waitScreenLoop (target : String) : Nat → Sess →
    Option (Except String (Sess × List Act))
  | 0, _ => none
  | fuel + 1, σ =>
    match σ.rng with
    | [] => none
    | j :: rngRest =>
      obind (captureShot { σ with rng := rngRest }) fun p =>
        if p.1.hash = target then
          some (.ok (p.2,
            [.sleepMs (500 + j % 500), .capture p.1, .sleepMs 1000]))
        else
          obind (waitScreenLoop target fuel p.2) fun q =>
            some (.ok (q.1,
              .sleepMs (500 + j % 500) :: .capture p.1 :: q.2))

/-- The `WaitScreen` arm of `boot_command`. -/
def waitScreenRun (target : String) (σ : Sess) :
    Option (Except String (Sess × List Act)) :=
  waitScreenLoop target σ.shots.length σ

/-- The `WaitScreenRect` polling loop: a fixed 1 s sleep between polls
(no jitter, the rng stream is untouched), and the captured frame is
trimmed to `rect` before hashing.  `trim` out-of-bounds panics surface
as `none`. -/
def waitScreenRectLoop (target : String) (rect : VRect) : Nat → Sess →
    Option (Except String (Sess × List Act))
  | 0, _ => none
  | fuel + 1, σ =>
    obind (captureShot σ) fun p =>
      obind (p.1.trim rect) fun ts =>
        if ts.hash = target then
          some (.ok (p.2, [.sleepMs 1000, .capture p.1, .sleepMs 1000]))
        else
          obind (waitScreenRectLoop target rect fuel p.2) fun q =>
            some (.ok (q.1, .sleepMs 1000 :: .capture p.1 :: q.2))

/-- The `WaitScreenRect` arm of `boot_command`. -/
def waitScreenRectRun (target : String) (rect : VRect) (σ : Sess) :
    Option (Except String (Sess × List Act)) :=
  waitScreenRectLoop target rect σ.shots.length σ

/-! ## The breakpoint prompt (`handle_breakpoint`) -/

/-- Accumulator pass of `splitWhitespace`: `acc` holds the reversed
characters of the word currently being read. -/
def splitWsAux : List Char → List Char → List String
  | [], acc => if acc = [] then [] else [String.mk acc.reverse]
  | c :: rest, acc =>
    if c.isWhitespace then
      if acc = [] then splitWsAux rest []
      else String.mk acc.reverse :: splitWsAux rest []
    else splitWsAux rest (c :: acc)

/-- Rust `str::split_whitespace`: split on whitespace, dropping empty
fragments. -/
def splitWhitespace (s : String) : List String :=
  splitWsAux s.toList []

/-- Rust `str::parse::<u16>()`: an optional leading `+`, then decimal
digits, rejecting the empty string, non-digits and values above 65535. -/
def parseU16 (s : String) : Option Nat :=
  let cs :=
    match s.toList with
    | '+' :: rest => rest
    | cs => cs
  if cs = [] then none
  else if cs.all fun c => c.isDigit then
    let n := cs.foldl (fun acc c => acc * 10 + (c.toNat - 48)) 0
    if n ≤ 65535 then some n else none
  else none

/-- The optional trim of the breakpoint `s` command: when at least four
further words follow, they are parsed as u16 `top left width height`
(a parse failure is an error that aborts the breakpoint); otherwise the
full frame is kept. -/
def breakpointTrim (shot : VncScreenshot) (args : List String) :
    Option (Except String VncScreenshot) :=
  match args with
  | t :: l :: w :: ht :: _ =>
    match parseU16 t, parseU16 l, parseU16 w, parseU16 ht with
    | some tv, some lv, some wv, some hv => shot.trim ⟨tv, lv, wv, hv⟩
    | _, _, _, _ => some (.error "invalid digit found in string")
  | _ => some (.ok shot)

/-- `VncConnection::handle_breakpoint`: show the prompt, read a line,
and dispatch on its first whitespace-separated word.  `c` continues,
`q` clears the debug flag and continues, `s` captures (optionally
trimmed to four parsed u16 arguments) and writes a hash-named PNG, and
anything else repeats the prompt.  Exhausted operator input models the
unexiting read loop as `none`. -/
def handleBreakpoint (cmd : VncCmd) : List String → Sess →
    Option (Except String (List String × Sess × List Act))
  | [], _ => none
  | line :: rest, σ =>
    if (splitWhitespace line).head? = some "c" then
      some (.ok (rest, σ, [.prompt cmd]))
    else if (splitWhitespace line).head? = some "s" then
      obind (captureShot σ) fun p =>
        obind (breakpointTrim p.1 (splitWhitespace line).tail) fun s =>
          obind (handleBreakpoint cmd rest p.2) fun r =>
            some (.ok (r.1, r.2.1,
              .prompt cmd :: .capture p.1 ::
                .png ("screenshots/" ++ s.hash ++ ".png") :: r.2.2))
    else if (splitWhitespace line).head? = some "q" then
      some (.ok (rest, { σ with debug := false }, [.prompt cmd]))
    else
      obind (handleBreakpoint cmd rest σ) fun r =>
        some (.ok (r.1, r.2.1, .prompt cmd :: r.2.2))

/-! ## `boot_command` -/

/-- Whether a command is a plain `Wait` (the only kind that skips the
debug breakpoint). -/
def isPlainWait : VncCmd → Bool
  | .wait _ => true
  | _ => false

/-- The `match item` body of `boot_command`: the events and state change
of executing one command (without the breakpoint and recording parts). -/
def execCmd (σ : Sess) : VncCmd → Option (Except String (Sess × List Act))
  | .type text => some (.ok (σ, typeText text))
  | .wait seconds => some (.ok (σ, [.sleepMs (1000 * seconds)]))
  | .waitScreen h => waitScreenRun h σ
  | .waitScreenRect h t l w ht => waitScreenRectRun h ⟨t, l, w, ht⟩ σ
  | .enter => some (.ok (σ, [.key true 0xff0d, .key false 0xff0d]))
  | .tab => some (.ok (σ, [.key true 0xff09, .key false 0xff09]))
  | .spacebar => some (.ok (σ, [.key true 0x0020, .key false 0x0020]))
  | .leftSuper => some (.ok (σ, [.key true 0xffeb, .key false 0xffeb]))

/-- The recording step at the end of every `boot_command` iteration:
when `record` is set, capture a full frame unconditionally and write it
as `screenshots/{n}.png` for 1-based step counter `n`. -/
def recordShot (σ : Sess) (n : Nat) :
    Option (Except String (Sess × List Act)) :=
  if σ.record then
    obind (captureShot σ) fun p =>
      some (.ok (p.2,
        [.capture p.1, .png ("screenshots/" ++ toString n ++ ".png")]))
  else some (.ok (σ, []))

/-- One iteration of the inner `for item in step` loop of
`boot_command`: breakpoint, command, recording. -/
def execItem (σ : Sess) (stdin : List String) (n : Nat) (item : VncCmd) :
    Option (Except String (Sess × List String × List Act)) :=
  obind (if σ.debug && !(isPlainWait item) then handleBreakpoint item stdin σ
      else some (.ok (stdin, σ, []))) fun r1 =>
    obind (execCmd r1.2.1 item) fun r2 =>
      obind (recordShot r2.1 n) fun r3 =>
        some (.ok (r3.1, r1.1, r1.2.2 ++ r2.2 ++ r3.2))

/-- The inner `for item in step` loop, threading the step counter. -/
def runItems (σ : Sess) (stdin : List String) (n : Nat) :
    List VncCmd → Option (Except String (Sess × List String × List Act))
  | [] => some (.ok (σ, stdin, []))
  | item :: rest =>
    obind (execItem σ stdin (n + 1) item) fun r1 =>
      obind (runItems r1.1 r1.2.1 (n + 1) rest) fun r2 =>
        some (.ok (r2.1, r2.2.1, r1.2.2 ++ r2.2.2))

/-- The outer `for step in command` loop. -/
def runSteps (σ : Sess) (stdin : List String) (n : Nat) :
    List (List VncCmd) →
    Option (Except String (Sess × List String × List Act))
  | [] => some (.ok (σ, stdin, []))
  | step :: rest =>
    obind (runItems σ stdin n step) fun r1 =>
      obind (runSteps r1.1 r1.2.1 (n + step.length) rest) fun r2 =>
        some (.ok (r2.1, r2.2.1, r1.2.2 ++ r2.2.2))

/-- `VncConnection::boot_command`: run every step in order with a
global 1-based step counter. -/
def bootCommand (σ : Sess) (stdin : List String) (cmds : List (List VncCmd)) :
    Option (Except String (Sess × List String × List Act)) :=
  runSteps σ stdin 0 cmds

/-! ## Trace bookkeeping -/

/-- Actions of the engine trace that are neither a breakpoint prompt nor
a PNG write: key events, sleeps, captures. -/
def isBenign : Act → Bool
  | .key _ _ => true
  | .sleepMs _ => true
  | .capture _ => true
  | _ => false

/-- All actions of a trace are benign (no prompt, no PNG write). -/
def Benign (tr : List Act) : Prop := ∀ a ∈ tr, isBenign a = true

/-- The PNG file paths written in a trace, in order. -/
def pngPaths (tr : List Act) : List String :=
  tr.filterMap fun a => match a with | .png p => some p | _ => none

/-- No breakpoint prompt appears in the trace. -/
def PromptFree (tr : List Act) : Prop := ∀ c, Act.prompt c ∉ tr

/-- The jitter-sleep/capture pairs of the non-matching iterations of a
`WaitScreen` poll loop, flattened into the trace. -/
def pollBlocks (pairs : List (Nat × VncScreenshot)) : List Act :=
  pairs.flatMap fun p => [.sleepMs p.1, .capture p.2]

/-- The fixed-sleep/capture blocks of the non-matching iterations of a
`WaitScreenRect` poll loop. -/
def rectBlocks (pre : List VncScreenshot) : List Act :=
  pre.flatMap fun s => [.sleepMs 1000, .capture s]

/-! ## Helper lemmas -/

example : hexEncode (sha1 [97, 98, 99]) = "a9993e364706816aba3e25717850c26c9cd0d89d" := by decide
example : sha1 [0] = [91, 169, 60, 157, 176, 207, 249, 63, 82, 181, 33, 215, 66, 14, 67, 246, 237, 162, 120, 79] := by decide


theorem mapOpt_isSome_iff (f : α → Option β) :
    ∀ l : List α, (mapOpt f l).isSome ↔ ∀ a ∈ l, (f a).isSome := by
  intro l
  induction l with
  | nil => simp [mapOpt]
  | cons a l ih =>
    constructor
    · intro h b hb
      rcases List.mem_cons.mp hb with hb | hb
      · subst hb
        cases hfa : f b <;> simp [mapOpt, hfa] at h ⊢
      · cases hfa : f a
        · simp [mapOpt, hfa] at h
        · cases hrest : mapOpt f l
          · simp [mapOpt, hfa, hrest] at h
          · exact ih.mp (by simp [hrest]) b hb
    · intro h
      have hfa : (f a).isSome := h a (List.mem_cons_self a l)
      have hrest : (mapOpt f l).isSome := ih.mpr fun b hb => h b (List.mem_cons_of_mem a hb)
      cases hfa2 : f a
      · simp [hfa2] at hfa
      · cases hrest2 : mapOpt f l
        · simp [hrest2] at hrest
        · simp [mapOpt, hfa2, hrest2]

theorem mapOpt_eq_none_iff (f : α → Option β) (l : List α) :
    mapOpt f l = none ↔ ∃ a ∈ l, f a = none := by
  induction l with
  | nil => simp [mapOpt]
  | cons a l ih =>
    cases hfa : f a with
    | none =>
      simp only [mapOpt, hfa]
      exact ⟨fun _ => ⟨a, List.mem_cons_self a l, hfa⟩, fun _ => trivial⟩
    | some b =>
      cases hrest : mapOpt f l with
      | none =>
        simp only [mapOpt, hfa, hrest]
        constructor
        · intro _
          rcases ih.mp hrest with ⟨c, hc, hfc⟩
          exact ⟨c, List.mem_cons_of_mem a hc, hfc⟩
        · intro _; trivial
      | some bs =>
        simp only [mapOpt, hfa, hrest]
        constructor
        · intro hcontra; cases hcontra
        · rintro ⟨c, hc, hfc⟩
          rcases List.mem_cons.mp hc with hc | hc
          · subst hc; rw [hfa] at hfc; cases hfc
          · have hn := ih.mpr ⟨c, hc, hfc⟩
            rw [hrest] at hn; cases hn

theorem mapOpt_eq_some_map (f : α → Option β) (g : α → β) :
    ∀ l : List α, (∀ a ∈ l, f a = some (g a)) → mapOpt f l = some (l.map g) := by
  intro l
  induction l with
  | nil => intro _; rfl
  | cons a l ih =>
    intro h
    have hfa := h a (List.mem_cons_self a l)
    have hrest := ih fun b hb => h b (List.mem_cons_of_mem a hb)
    simp [mapOpt, hfa, hrest]

theorem flatten_getElem_uniform (w : Nat) :
    ∀ (L : List (List α)), (∀ l ∈ L, l.length = w) → ∀ y x, x < w →
      L.flatten[y * w + x]? = L[y]?.bind fun row => row[x]? := by
  intro L
  induction L with
  | nil => intro _ y x _; simp
  | cons row L ih =>
    intro hw y x hx
    have hrow : row.length = w := hw row (List.mem_cons_self row L)
    have hL : ∀ l ∈ L, l.length = w := fun l hl => hw l (List.mem_cons_of_mem row hl)
    cases y with
    | zero =>
      have hlt : 0 * w + x < row.length := by omega
      simp only [List.flatten_cons, Nat.zero_mul, Nat.zero_add]
      rw [List.getElem?_append_left (by omega)]
      simp
    | succ y =>
      simp only [List.flatten_cons]
      have hge : row.length ≤ (y + 1) * w + x := by
        have : (y + 1) * w = y * w + w := by ring
        omega
      rw [List.getElem?_append_right hge]
      have harith : (y + 1) * w + x - row.length = y * w + x := by
        have : (y + 1) * w = y * w + w := by ring
        omega
      rw [harith, ih hL y x hx]
      simp

theorem opt_some_getD {o : Option α} (h : o.isSome) (d : α) :
    o = some (o.getD d) := by
  cases o
  · simp at h
  · rfl

/-! ## Behaviour of `trim` -/

theorem trim_never_error (s : VncScreenshot) (r : VRect) (e : String) :
    s.trim r ≠ some (.error e) := by
  unfold VncScreenshot.trim
  cases mapOpt (trimRow s r) (List.range r.height) <;> simp

theorem trim_eq_none_iff (s : VncScreenshot) (r : VRect) :
    s.trim r = none ↔ ∃ y < r.height, ∃ x < r.width,
      s.data.length ≤ (y + r.top) * s.width + (x + r.left) := by
  have hmain : s.trim r = none ↔
      mapOpt (trimRow s r) (List.range r.height) = none := by
    unfold VncScreenshot.trim
    cases mapOpt (trimRow s r) (List.range r.height) <;> simp
  rw [hmain, mapOpt_eq_none_iff]
  constructor
  · rintro ⟨y, hy, hrow⟩
    rw [List.mem_range] at hy
    rw [trimRow, mapOpt_eq_none_iff] at hrow
    rcases hrow with ⟨x, hx, hfx⟩
    rw [List.mem_range] at hx
    rw [List.getElem?_eq_none_iff] at hfx
    exact ⟨y, hy, x, hx, hfx⟩
  · rintro ⟨y, hy, x, hx, hlen⟩
    refine ⟨y, List.mem_range.mpr hy, ?_⟩
    rw [trimRow, mapOpt_eq_none_iff]
    exact ⟨x, List.mem_range.mpr hx, List.getElem?_eq_none hlen⟩

theorem trim_ok_pixels (s : VncScreenshot) (r : VRect) (out : VncScreenshot)
    (h : s.trim r = some (.ok out)) :
    out.width = r.width ∧ out.height = r.height ∧
      ∀ y < r.height, ∀ x < r.width,
        out.data[y * r.width + x]? =
          s.data[(y + r.top) * s.width + (x + r.left)]? := by
  unfold VncScreenshot.trim at h
  cases hm : mapOpt (trimRow s r) (List.range r.height) with
  | none => rw [hm] at h; cases h
  | some rows =>
    rw [hm] at h
    have hout : VncScreenshot.mk rows.flatten r.width r.height = out :=
      Except.ok.inj (Option.some.inj h)
    subst hout
    refine ⟨rfl, rfl, ?_⟩
    intro y hy x hx
    have hall : ∀ a ∈ List.range r.height, (trimRow s r a).isSome :=
      (mapOpt_isSome_iff _ _).mp (by simp [hm])
    have hrows : mapOpt (trimRow s r) (List.range r.height)
        = some ((List.range r.height).map fun yy =>
            (List.range r.width).map fun xx =>
              (s.data[(yy + r.top) * s.width + (xx + r.left)]?).getD 0) := by
      apply mapOpt_eq_some_map
      intro yy hyy
      have hrowSome := hall yy hyy
      rw [trimRow] at hrowSome ⊢
      apply mapOpt_eq_some_map
      intro xx hxx
      exact opt_some_getD ((mapOpt_isSome_iff _ _).mp hrowSome xx hxx) 0
    have hrowsEq := Option.some.inj (hm.symm.trans hrows)
    subst hrowsEq
    rw [flatten_getElem_uniform r.width _ ?_ y x hx]
    · rw [List.getElem?_map, List.getElem?_range hy]
      simp only [Option.map_some', Option.some_bind]
      rw [List.getElem?_map, List.getElem?_range hx]
      simp only [Option.map_some']
      have hySome : (trimRow s r y).isSome := hall y (List.mem_range.mpr hy)
      rw [trimRow] at hySome
      have hxSome := (mapOpt_isSome_iff _ _).mp hySome x (List.mem_range.mpr hx)
      exact (opt_some_getD hxSome 0).symm
    · intro l hl
      rcases List.mem_map.mp hl with ⟨yy, _, hyy⟩
      rw [← hyy]
      simp

theorem flatten_map_nil (l : List α) :
    (l.map fun _ => ([] : List β)).flatten = [] := by
  induction l with
  | nil => rfl
  | cons a l ih => simp [ih]

/-! ## Claims about `trim` and `hash` -/

/-- Claim C1, counterexample: on the 2×2 snapshot `[10,20,30,40]`, the
rect `{top 0, left 0, width 3, height 1}` is not contained
(`left + width  = 3 > 2`) yet `trim` returns `Ok` with bytes read across
the row boundary (no bounds error), while the rect
`{top 0, left 0, width 2, height 3}` makes `trim` panic on an
out-of-range index (modelled `none`) instead of returning an error. -/
theorem C1_counterexample :
    (VRect.mk 0 0 3 1).left + (VRect.mk 0 0 3 1).width >
        (VncScreenshot.mk [10, 20, 30, 40] 2 2).width ∧
      (VncScreenshot.mk [10, 20, 30, 40] 2 2).trim (VRect.mk 0 0 3 1) =
        some (.ok (VncScreenshot.mk [10, 20, 30] 3 1)) ∧
      (VncScreenshot.mk [10, 20, 30, 40] 2 2).trim (VRect.mk 0 0 2 3) =
        none := by
  refine ⟨by decide, by decide, by decide⟩

/-- Claim C1, amended: `trim` performs no containment validation and
never returns a bounds error.  On a rect that is not fully contained it
either panics (exactly when some flat source index
`(y + top) * S.width + (x + left)` reaches past the pixel buffer) or
silently returns a screenshot of dimensions `R.width × R.height` whose
pixels are read from those flat offsets, crossing row boundaries. -/
theorem C1_amended_trim_unvalidated :
    (∀ (s : VncScreenshot) (r : VRect) (e : String),
      s.trim r ≠ some (.error e)) ∧
    (∀ (s : VncScreenshot) (r : VRect),
      s.trim r = none ↔ ∃ y < r.height, ∃ x < r.width,
        s.data.length ≤ (y + r.top) * s.width + (x + r.left)) ∧
    (∀ (s : VncScreenshot) (r : VRect) (out : VncScreenshot),
      s.trim r = some (.ok out) →
        out.width = r.width ∧ out.height = r.height ∧
        ∀ y < r.height, ∀ x < r.width,
          out.data[y * r.width + x]? =
            s.data[(y + r.top) * s.width + (x + r.left)]?) :=
  ⟨trim_never_error, trim_eq_none_iff, trim_ok_pixels⟩

/-- Claim C1, amended, witness at a concrete input: the sub-rect
`{top 1, left 0, width 2, height 1}` of the 2×2 snapshot. -/
theorem C1_witness :
    ((VncScreenshot.mk [10, 20, 30, 40] 2 2).trim (VRect.mk 1 0 2 1) ≠
        some (.error "boom")) ∧
      ([30, 40] : List Nat)[0 * 2 + 1]? =
        ([10, 20, 30, 40] : List Nat)[(0 + 1) * 2 + (1 + 0)]? :=
  ⟨C1_amended_trim_unvalidated.1 (VncScreenshot.mk [10, 20, 30, 40] 2 2)
      (VRect.mk 1 0 2 1) "boom",
    (C1_amended_trim_unvalidated.2.2 (VncScreenshot.mk [10, 20, 30, 40] 2 2)
        (VRect.mk 1 0 2 1) (VncScreenshot.mk [30, 40] 2 1)
        (by decide)).2.2 0 (by decide) 1 (by decide)⟩

/-- Claim C8: for a snapshot whose buffer length is `width*height` and a
rect fully inside it, `trim` succeeds striking no panic, and output pixel
`(x, y)` equals source pixel `(R.top + y, R.left + x)`, with output
dimensions `R.width × R.height`. -/
theorem C8_trim_contained (s : VncScreenshot) (r : VRect)
    (hlen : s.data.length = s.width * s.height)
    (htop : r.top + r.height ≤ s.height)
    (hleft : r.left + r.width ≤ s.width) :
    ∃ out, s.trim r = some (.ok out) ∧ out.width = r.width ∧
      out.height = r.height ∧
      ∀ y < r.height, ∀ x < r.width,
        out.data[y * r.width + x]? =
          s.data[(r.top + y) * s.width + (r.left + x)]? := by
  have hnone : s.trim r ≠ none := by
    intro hn
    rw [trim_eq_none_iff] at hn
    rcases hn with ⟨y, hy, x, hx, hle⟩
    have h1 : (y + r.top) * s.width + (x + r.left) <
        (y + r.top + 1) * s.width := by
      rw [Nat.succ_mul]
      omega
    have h2 : (y + r.top + 1) * s.width ≤ s.height * s.width :=
      Nat.mul_le_mul_right _ (by omega)
    rw [Nat.mul_comm s.height s.width] at h2
    omega
  cases htr : s.trim r with
  | none => exact absurd htr hnone
  | some res =>
    cases res with
    | error e => exact absurd htr (trim_never_error s r e)
    | ok out =>
      rcases trim_ok_pixels s r out htr with ⟨hw, hh, hpix⟩
      refine ⟨out, rfl, hw, hh, ?_⟩
      intro y hy x hx
      rw [Nat.add_comm r.top y, Nat.add_comm r.left x]
      exact hpix y hy x hx

/-- Claim C8, witness: the bottom row of the 2×2 snapshot `[1,2,3,4]`. -/
theorem C8_witness :
    ∃ out, (VncScreenshot.mk [1, 2, 3, 4] 2 2).trim (VRect.mk 1 0 2 1) =
        some (.ok out) ∧ out.width = 2 ∧ out.height = 1 ∧
      ∀ y < 1, ∀ x < 2,
        out.data[y * 2 + x]? =
          ([1, 2, 3, 4] : List Nat)[(1 + y) * 2 + (0 + x)]? :=
  C8_trim_contained (VncScreenshot.mk [1, 2, 3, 4] 2 2) (VRect.mk 1 0 2 1)
    (by decide) (by decide) (by decide)

/-- Claim C10: a degenerate rect (zero width or zero height) always
trims successfully to an empty buffer with the rect's dimensions, with
no containment check on `top`/`left`. -/
theorem C10_trim_degenerate (s : VncScreenshot) (r : VRect)
    (h : r.width = 0 ∨ r.height = 0) :
    s.trim r = some (.ok (VncScreenshot.mk [] r.width r.height)) := by
  rcases r with ⟨t, l, w, ht⟩
  rcases h with h | h
  · subst h
    have hrow : ∀ y ∈ List.range ht,
        trimRow s (VRect.mk t l 0 ht) y = some ([] : List Nat) := by
      intro y _
      rfl
    have hm : mapOpt (trimRow s (VRect.mk t l 0 ht)) (List.range ht) =
        some ((List.range ht).map fun _ => ([] : List Nat)) :=
      mapOpt_eq_some_map _ _ _ hrow
    unfold VncScreenshot.trim
    simp only [hm, flatten_map_nil]
  · subst h
    rfl

/-- Claim C10, witness: a rect whose `top`/`left` lie far outside the
1×1 snapshot, but with zero width. -/
theorem C10_witness :
    (VncScreenshot.mk [5] 1 1).trim (VRect.mk 100 200 0 3) =
      some (.ok (VncScreenshot.mk [] 0 3)) :=
  C10_trim_degenerate (VncScreenshot.mk [5] 1 1) (VRect.mk 100 200 0 3)
    (Or.inl rfl)

/-- Claim C9: `hash` is a deterministic function of the raw pixel bytes
only; two snapshots with identical buffers hash identically whatever
their dimensions. -/
theorem C9_hash_data_only (s t : VncScreenshot) (h : s.data = t.data) :
    s.hash = t.hash := by
  unfold VncScreenshot.hash
  rw [h]

/-- Claim C9, witness: the same one-byte buffer under 1×1 and 5×9
dimensions hashes identically. -/
theorem C9_witness :
    (VncScreenshot.mk [7] 1 1).hash = (VncScreenshot.mk [7] 5 9).hash ∧
      (VncScreenshot.mk [7] 1 1).width ≠ (VncScreenshot.mk [7] 5 9).width :=
  ⟨C9_hash_data_only (VncScreenshot.mk [7] 1 1) (VncScreenshot.mk [7] 5 9) rfl,
    by decide⟩

/-- Claim C5: each character of a `Type` command is sent as
shift-down/key-down/key-up/shift-up when it is uppercase or in the
punctuation set `~ ! # $ % ^ & * ( ) _ +`, and as key-down/key-up
otherwise, keysym `0x01000000 + codepoint`, with a 200 ms sleep after
each character; in particular `Type("Ab1!")` produces exactly the
shifted-A, plain-b, plain-1, shifted-! sequence. -/
theorem C5_type_events :
    (∀ c : Char, typeChar c =
      (if isUppercaseRust c || shiftPunct.contains c then
        [.key true 0xffe1, .key true (0x01000000 + c.toNat),
         .key false (0x01000000 + c.toNat), .key false 0xffe1]
      else
        [.key true (0x01000000 + c.toNat), .key false (0x01000000 + c.toNat)])
      ++ [.sleepMs 200]) ∧
    typeText "Ab1!" =
      [.key true 0xffe1, .key true (0x01000000 + 65),
       .key false (0x01000000 + 65), .key false 0xffe1, .sleepMs 200,
       .key true (0x01000000 + 98), .key false (0x01000000 + 98),
       .sleepMs 200,
       .key true (0x01000000 + 49), .key false (0x01000000 + 49),
       .sleepMs 200,
       .key true 0xffe1, .key true (0x01000000 + 33),
       .key false (0x01000000 + 33), .key false 0xffe1, .sleepMs 200] := by
  constructor
  · intro c
    unfold typeChar
    cases h1 : isUppercaseRust c
    · cases h2 : shiftPunct.contains c <;> simp [h1, h2]
    · simp [h1]
  · decide

/-! ## Claims about `VncConnection::screenshot` -/

theorem scanBatch_found_mem :
    ∀ (b : List VncEvent) (req : VRect) (w h : Nat) (s : VncScreenshot)
      (w2 h2 : Nat), scanBatch req w h b = .found s w2 h2 →
      s.width = req.width ∧ s.height = req.height ∧
        VncEvent.putPixels req s.data ∈ b := by
  intro b
  induction b with
  | nil =>
    intro req w h s w2 h2 hscan
    simp [scanBatch] at hscan
  | cons e rest ih =>
    intro req w h s w2 h2 hscan
    cases e with
    | resize w3 h3 =>
      rcases ih req w3 h3 s w2 h2 hscan with ⟨h1, h2, h3⟩
      exact ⟨h1, h2, List.mem_cons_of_mem _ h3⟩
    | putPixels r px =>
      by_cases hr : r = req
      · subst hr
        simp only [scanBatch, if_pos rfl] at hscan
        cases hscan
        exact ⟨rfl, rfl, List.mem_cons_self _ _⟩
      · simp only [scanBatch, if_neg hr] at hscan
        rcases ih req w h s w2 h2 hscan with ⟨h1, h2, h3⟩
        exact ⟨h1, h2, List.mem_cons_of_mem _ h3⟩
    | endOfFrame =>
      rcases ih req w h s w2 h2 hscan with ⟨h1, h2, h3⟩
      exact ⟨h1, h2, List.mem_cons_of_mem _ h3⟩
    | other => simp [scanBatch] at hscan

theorem screenshotLoop_ok_mem :
    ∀ (bs : List (List VncEvent)) (w h : Nat) (s : VncScreenshot)
      (w2 h2 : Nat), screenshotLoop w h bs = some (.ok (s, w2, h2)) →
      ∃ wi hi b, b ∈ bs ∧
        VncEvent.putPixels (VRect.mk 0 0 wi hi) s.data ∈ b ∧
        s.width = wi ∧ s.height = hi := by
  intro bs
  induction bs with
  | nil =>
    intro w h s w2 h2 hloop
    simp [screenshotLoop] at hloop
  | cons b rest ih =>
    intro w h s w2 h2 hloop
    simp only [screenshotLoop] at hloop
    cases hscan : scanBatch (VRect.mk 0 0 w h) w h b with
    | found s3 w3 h3 =>
      rw [hscan] at hloop
      have hs : s3 = s := by
        injection hloop with h1
        injection h1 with h2
        exact congrArg Prod.fst h2
      subst hs
      rcases scanBatch_found_mem b (VRect.mk 0 0 w h) w h s3 w3 h3 hscan with
        ⟨h1, h2, h3⟩
      exact ⟨w, h, b, List.mem_cons_self _ _, h3, h1, h2⟩
    | nofind w3 h3 =>
      rw [hscan] at hloop
      rcases ih w3 h3 s w2 h2 hloop with ⟨wi, hi, b2, hmem, hpix, hw, hh⟩
      exact ⟨wi, hi, b2, List.mem_cons_of_mem _ hmem, hpix, hw, hh⟩
    | err e =>
      rw [hscan] at hloop
      cases hloop

/-- Claim C2, counterexample: starting at 2×2, a resize to 1×1 followed
in the same poll batch by a pixel block matching the old 2×2 request is
still accepted, so `screenshot` returns a 2×2 snapshot while the session
dimensions are already 1×1 — the in-flight request is not invalidated
and the returned snapshot's dimensions are not the session's current
dimensions. -/
theorem C2_counterexample :
    screenshotRun 2 2 [[], [VncEvent.resize 1 1,
        VncEvent.putPixels (VRect.mk 0 0 2 2) [9, 9, 9, 9]]] =
      some (.ok (VncScreenshot.mk [9, 9, 9, 9] 2 2, 1, 1)) ∧
      (VncScreenshot.mk [9, 9, 9, 9] 2 2).width ≠ 1 := by
  exact ⟨by decide, by decide⟩

/-- Claim C2, amended: `screenshot` returns only on a pixel block whose
rectangle exactly matches a full-area rectangle it requested (sized to
the session dimensions current when that request was issued), and a
resize updates the dimensions so that the next request — issued only
after the current batch is exhausted without a matching block — uses the
new size; but the in-flight request is not invalidated, so a matching
block later in the same batch is still returned and the snapshot's
dimensions may differ from the session's current dimensions. -/
theorem C2_amended_screenshot :
    (∀ (b : List VncEvent) (req : VRect) (w h : Nat) (s : VncScreenshot)
      (w2 h2 : Nat), scanBatch req w h b = .found s w2 h2 →
        s.width = req.width ∧ s.height = req.height ∧
          VncEvent.putPixels req s.data ∈ b) ∧
    (∀ (w h w2 h2 : Nat) (b : List VncEvent) (bs : List (List VncEvent)),
      scanBatch (VRect.mk 0 0 w h) w h b = .nofind w2 h2 →
        screenshotLoop w h (b :: bs) = screenshotLoop w2 h2 bs) ∧
    (∀ (bs : List (List VncEvent)) (w h : Nat) (s : VncScreenshot)
      (w2 h2 : Nat), screenshotLoop w h bs = some (.ok (s, w2, h2)) →
        ∃ wi hi b, b ∈ bs ∧
          VncEvent.putPixels (VRect.mk 0 0 wi hi) s.data ∈ b ∧
          s.width = wi ∧ s.height = hi) := by
  refine ⟨scanBatch_found_mem, ?_, screenshotLoop_ok_mem⟩
  intro w h w2 h2 b bs hscan
  simp [screenshotLoop, hscan]

/-- Claim C2, amended, witness at concrete inputs for each conjunct. -/
theorem C2_witness :
    ((VncScreenshot.mk [5] 1 1).width = (VRect.mk 0 0 1 1).width ∧
      (VncScreenshot.mk [5] 1 1).height = (VRect.mk 0 0 1 1).height ∧
      VncEvent.putPixels (VRect.mk 0 0 1 1)
          (VncScreenshot.mk [5] 1 1).data ∈
        [VncEvent.putPixels (VRect.mk 0 0 1 1) [5]]) ∧
    screenshotLoop 2 2 [[VncEvent.resize 3 3]] = screenshotLoop 3 3 [] ∧
    (∃ wi hi b, b ∈ [[VncEvent.putPixels (VRect.mk 0 0 1 1) [5]]] ∧
      VncEvent.putPixels (VRect.mk 0 0 wi hi)
          (VncScreenshot.mk [5] 1 1).data ∈ b ∧
      (VncScreenshot.mk [5] 1 1).width = wi ∧
      (VncScreenshot.mk [5] 1 1).height = hi) :=
  ⟨C2_amended_screenshot.1 [VncEvent.putPixels (VRect.mk 0 0 1 1) [5]]
      (VRect.mk 0 0 1 1) 1 1 (VncScreenshot.mk [5] 1 1) 1 1 (by decide),
    C2_amended_screenshot.2.1 2 2 3 3 [VncEvent.resize 3 3] [] (by decide),
    C2_amended_screenshot.2.2 [[VncEvent.putPixels (VRect.mk 0 0 1 1) [5]]]
      1 1 (VncScreenshot.mk [5] 1 1) 1 1 (by decide)⟩

/-! ## Trace bookkeeping (theorems) -/

theorem pngPaths_append (a b : List Act) :
    pngPaths (a ++ b) = pngPaths a ++ pngPaths b :=
  List.filterMap_append a b _

theorem pngPaths_nil_of_benign {tr : List Act} (h : Benign tr) :
    pngPaths tr = [] := by
  induction tr with
  | nil => rfl
  | cons a tr ih =>
    have ha := h a (List.mem_cons_self a tr)
    have htl : Benign tr := fun b hb => h b (List.mem_cons_of_mem a hb)
    have htail := ih htl
    cases a with
    | prompt c => simp [isBenign] at ha
    | png p => simp [isBenign] at ha
    | key d k => simpa [pngPaths, List.filterMap_cons] using htail
    | sleepMs m => simpa [pngPaths, List.filterMap_cons] using htail
    | capture s => simpa [pngPaths, List.filterMap_cons] using htail

theorem promptFree_of_benign {tr : List Act} (h : Benign tr) :
    PromptFree tr := by
  intro c hc
  have := h _ hc
  simp [isBenign] at this

theorem benign_append {a b : List Act} (ha : Benign a) (hb : Benign b) :
    Benign (a ++ b) := by
  intro x hx
  rcases List.mem_append.mp hx with h | h
  · exact ha x h
  · exact hb x h

theorem promptFree_append {a b : List Act} (ha : PromptFree a)
    (hb : PromptFree b) : PromptFree (a ++ b) := by
  intro c hc
  rcases List.mem_append.mp (hc : _ ∈ a ++ b) with h | h
  · exact ha c h
  · exact hb c h

theorem benign_typeChar (c : Char) : Benign (typeChar c) := by
  intro a ha
  simp only [typeChar] at ha
  rcases List.mem_append.mp ha with h | h
  · split at h
    · simp at h
      rcases h with rfl | rfl | rfl | rfl <;> rfl
    · split at h
      · simp at h
        rcases h with rfl | rfl | rfl | rfl <;> rfl
      · simp at h
        rcases h with rfl | rfl <;> rfl
  · simp at h
    subst h
    rfl

theorem benign_typeText (text : String) : Benign (typeText text) := by
  intro a ha
  rcases List.mem_flatMap.mp ha with ⟨c, _, hc⟩
  exact benign_typeChar c a hc

/-! ## Behaviour of the polling loops -/

theorem obind_ok_iff {x : Option (Except String α)}
    {f : α → Option (Except String β)} {r : β} :
    obind x f = some (.ok r) ↔ ∃ a, x = some (.ok a) ∧ f a = some (.ok r) := by
  cases x with
  | none => simp [obind]
  | some e =>
    cases e with
    | error e => simp [obind]
    | ok a => simp [obind]

theorem captureShot_ok_flags {σ : Sess} {s : VncScreenshot} {σ2 : Sess}
    (h : captureShot σ = some (.ok (s, σ2))) :
    σ2.debug = σ.debug ∧ σ2.record = σ.record ∧ σ2.rng = σ.rng := by
  unfold captureShot at h
  cases hs : σ.shots with
  | nil =>
    simp only [hs] at h
    cases h
  | cons bs rest =>
    simp only [hs] at h
    rw [obind_ok_iff] at h
    obtain ⟨t, -, hf⟩ := h
    simp only [Option.some.injEq, Except.ok.injEq, Prod.mk.injEq] at hf
    obtain ⟨-, hσ⟩ := hf
    rw [← hσ]
    exact ⟨rfl, rfl, rfl⟩

theorem benign_pollBlocks (pairs : List (Nat × VncScreenshot)) :
    Benign (pollBlocks pairs) := by
  intro a ha
  rcases List.mem_flatMap.mp ha with ⟨p, _, hp⟩
  simp at hp
  rcases hp with rfl | rfl <;> rfl

theorem waitScreenLoop_ok_shape :
    ∀ (fuel : Nat) (target : String) (σ σ2 : Sess) (tr : List Act),
    waitScreenLoop target fuel σ = some (.ok (σ2, tr)) →
    σ2.debug = σ.debug ∧ σ2.record = σ.record ∧
    ∃ pairs j s, tr = pollBlocks pairs ++
        [.sleepMs j, .capture s, .sleepMs 1000] ∧
      s.hash = target ∧ 500 ≤ j ∧ j < 1000 ∧
      ∀ p ∈ pairs, (500 ≤ p.1 ∧ p.1 < 1000) ∧ p.2.hash ≠ target := by
  intro fuel
  induction fuel with
  | zero =>
    intro target σ σ2 tr h
    cases h
  | succ fuel ih =>
    intro target σ σ2 tr h
    cases hrng : σ.rng with
    | nil =>
      simp [waitScreenLoop, hrng] at h
    | cons j rngRest =>
      simp only [waitScreenLoop, hrng] at h
      rw [obind_ok_iff] at h
      obtain ⟨p, hcap, hbody⟩ := h
      have hcapP : captureShot { σ with rng := rngRest } =
          some (.ok (p.1, p.2)) := by rw [hcap]
      have hflags := captureShot_ok_flags hcapP
      by_cases hh : p.1.hash = target
      · rw [if_pos hh] at hbody
        simp only [Option.some.injEq, Except.ok.injEq, Prod.mk.injEq] at hbody
        obtain ⟨hσ, htr⟩ := hbody
        refine ⟨by rw [← hσ]; exact hflags.1, by rw [← hσ]; exact hflags.2.1,
          [], 500 + j % 500, p.1, ?_, hh, by omega, ?_, ?_⟩
        · rw [← htr]
          rfl
        · have := Nat.mod_lt j (show 0 < 500 by norm_num)
          omega
        · intro q hq
          cases hq
      · rw [if_neg hh] at hbody
        rw [obind_ok_iff] at hbody
        obtain ⟨q, hrec, hsome⟩ := hbody
        simp only [Option.some.injEq, Except.ok.injEq, Prod.mk.injEq] at hsome
        obtain ⟨hσ, htr⟩ := hsome
        obtain ⟨hd, hr, pairs, jj, ss, htr3, hhash, hj1, hj2, hpairs⟩ :=
          ih target p.2 q.1 q.2 (by rw [hrec])
        refine ⟨by rw [← hσ]; rw [hd]; exact hflags.1,
          by rw [← hσ]; rw [hr]; exact hflags.2.1,
          (500 + j % 500, p.1) :: pairs, jj, ss, ?_, hhash, hj1, hj2, ?_⟩
        · rw [← htr, htr3]
          simp [pollBlocks]
        · intro q2 hq2
          rcases List.mem_cons.mp hq2 with rfl | hq2
          · have := Nat.mod_lt j (show 0 < 500 by norm_num)
            exact ⟨⟨by omega, by omega⟩, hh⟩
          · exact hpairs q2 hq2

theorem benign_rectBlocks (pre : List VncScreenshot) :
    Benign (rectBlocks pre) := by
  intro a ha
  rcases List.mem_flatMap.mp ha with ⟨p, _, hp⟩
  simp at hp
  rcases hp with rfl | rfl <;> rfl

theorem waitScreenRectLoop_ok_shape :
    ∀ (fuel : Nat) (target : String) (rect : VRect) (σ σ2 : Sess)
      (tr : List Act),
    waitScreenRectLoop target rect fuel σ = some (.ok (σ2, tr)) →
    σ2.debug = σ.debug ∧ σ2.record = σ.record ∧ σ2.rng = σ.rng ∧
    ∃ pre s ts, tr = rectBlocks pre ++
        [.sleepMs 1000, .capture s, .sleepMs 1000] ∧
      s.trim rect = some (.ok ts) ∧ ts.hash = target ∧
      ∀ s2 ∈ pre, ∃ ts2, s2.trim rect = some (.ok ts2) ∧
        ts2.hash ≠ target := by
  intro fuel
  induction fuel with
  | zero =>
    intro target rect σ σ2 tr h
    cases h
  | succ fuel ih =>
    intro target rect σ σ2 tr h
    simp only [waitScreenRectLoop] at h
    rw [obind_ok_iff] at h
    obtain ⟨p, hcap, h⟩ := h
    rw [obind_ok_iff] at h
    obtain ⟨ts, htrim, h⟩ := h
    have hcapP : captureShot σ = some (.ok (p.1, p.2)) := by rw [hcap]
    have hflags := captureShot_ok_flags hcapP
    by_cases hh : ts.hash = target
    · rw [if_pos hh] at h
      simp only [Option.some.injEq, Except.ok.injEq, Prod.mk.injEq] at h
      obtain ⟨hσ, htr⟩ := h
      refine ⟨by rw [← hσ]; exact hflags.1, by rw [← hσ]; exact hflags.2.1,
        by rw [← hσ]; exact hflags.2.2, [], p.1, ts, ?_, htrim, hh, ?_⟩
      · rw [← htr]
        rfl
      · intro s2 hs2
        cases hs2
    · rw [if_neg hh] at h
      rw [obind_ok_iff] at h
      obtain ⟨q, hrec, hsome⟩ := h
      simp only [Option.some.injEq, Except.ok.injEq, Prod.mk.injEq] at hsome
      obtain ⟨hσ, htr⟩ := hsome
      obtain ⟨hd, hr, hg, pre, ss, ts2, htr3, htrim2, hhash2, hpre⟩ :=
        ih target rect p.2 q.1 q.2 (by rw [hrec])
      refine ⟨by rw [← hσ, hd]; exact hflags.1,
        by rw [← hσ, hr]; exact hflags.2.1,
        by rw [← hσ, hg]; exact hflags.2.2,
        p.1 :: pre, ss, ts2, ?_, htrim2, hhash2, ?_⟩
      · rw [← htr, htr3]
        simp [rectBlocks]
      · intro s2 hs2
        rcases List.mem_cons.mp hs2 with rfl | hs2
        · exact ⟨ts, htrim, hh⟩
        · exact hpre s2 hs2


/-- Claim C6: a successful `WaitScreen` wait returns only after the
first polled capture whose hash equals the target: its trace is a
sequence of jitter-sleep/capture blocks whose captures all hash
differently from the target, followed by one jitter sleep (every jitter
drawn from 500–1000 ms), the matching capture, and the fixed 1 s settle
sleep; in particular it never returns `Ok` without a capture hashing to
the target — the loop has no iteration or wall-clock bound and exits
only on a match (or a fatal transport error / divergence). -/
theorem C6_wait_screen_first_match :
    ∀ (target : String) (σ σ2 : Sess) (tr : List Act),
      waitScreenRun target σ = some (.ok (σ2, tr)) →
      (∃ pairs j s, tr = pollBlocks pairs ++
          [.sleepMs j, .capture s, .sleepMs 1000] ∧
        s.hash = target ∧ 500 ≤ j ∧ j < 1000 ∧
        ∀ p ∈ pairs, (500 ≤ p.1 ∧ p.1 < 1000) ∧ p.2.hash ≠ target) ∧
      ∃ s, Act.capture s ∈ tr ∧ s.hash = target := by
  intro target σ σ2 tr h
  obtain ⟨-, -, pairs, j, s, htr, hhash, hj1, hj2, hpairs⟩ :=
    waitScreenLoop_ok_shape _ target σ σ2 tr h
  refine ⟨⟨pairs, j, s, htr, hhash, hj1, hj2, hpairs⟩, s, ?_, hhash⟩
  rw [htr]
  exact List.mem_append.mpr (Or.inr (by simp))

/-- Claim C6, witness: a two-poll session whose second capture matches. -/
theorem C6_witness :
    (∃ pairs j s,
      [Act.sleepMs 517, Act.capture (VncScreenshot.mk [5] 1 1),
       Act.sleepMs 600, Act.capture (VncScreenshot.mk [7] 1 1),
       Act.sleepMs 1000] = pollBlocks pairs ++
          [.sleepMs j, .capture s, .sleepMs 1000] ∧
      s.hash = (VncScreenshot.mk [7] 1 1).hash ∧ 500 ≤ j ∧ j < 1000 ∧
      ∀ p ∈ pairs, (500 ≤ p.1 ∧ p.1 < 1000) ∧
        p.2.hash ≠ (VncScreenshot.mk [7] 1 1).hash) ∧
    ∃ s, Act.capture s ∈
        [Act.sleepMs 517, Act.capture (VncScreenshot.mk [5] 1 1),
         Act.sleepMs 600, Act.capture (VncScreenshot.mk [7] 1 1),
         Act.sleepMs 1000] ∧
      s.hash = (VncScreenshot.mk [7] 1 1).hash :=
  C6_wait_screen_first_match (VncScreenshot.mk [7] 1 1).hash
    ⟨1, 1, false, false,
      [[[], [VncEvent.putPixels (VRect.mk 0 0 1 1) [5]]],
       [[], [VncEvent.putPixels (VRect.mk 0 0 1 1) [7]]]], [17, 600]⟩
    ⟨1, 1, false, false, [], []⟩
    [Act.sleepMs 517, Act.capture (VncScreenshot.mk [5] 1 1),
     Act.sleepMs 600, Act.capture (VncScreenshot.mk [7] 1 1),
     Act.sleepMs 1000]
    (by decide)

/-- Claim C7: a successful `WaitScreenRect` wait behaves like
`WaitScreen` except that every inter-poll sleep is the fixed 1 s (the
rng stream is not consumed, so no jitter is drawn) and the hash compared
against the target is the hash of the capture trimmed to the given
rect. -/
theorem C7_wait_screen_rect :
    ∀ (target : String) (rect : VRect) (σ σ2 : Sess) (tr : List Act),
      waitScreenRectRun target rect σ = some (.ok (σ2, tr)) →
      σ2.rng = σ.rng ∧
      ∃ pre s ts, tr = rectBlocks pre ++
          [.sleepMs 1000, .capture s, .sleepMs 1000] ∧
        s.trim rect = some (.ok ts) ∧ ts.hash = target ∧
        ∀ s2 ∈ pre, ∃ ts2, s2.trim rect = some (.ok ts2) ∧
          ts2.hash ≠ target := by
  intro target rect σ σ2 tr h
  obtain ⟨-, -, hg, rest⟩ :=
    waitScreenRectLoop_ok_shape _ target rect σ σ2 tr h
  exact ⟨hg, rest⟩

/-- Claim C7, witness: a two-poll session, fixed 1 s sleeps, trimmed
hash comparison, rng untouched. -/
theorem C7_witness :
    (⟨1, 1, false, false, [], [99]⟩ : Sess).rng =
      (⟨1, 1, false, false,
        [[[], [VncEvent.putPixels (VRect.mk 0 0 1 1) [5]]],
         [[], [VncEvent.putPixels (VRect.mk 0 0 1 1) [7]]]],
        [99]⟩ : Sess).rng ∧
    ∃ pre s ts,
      [Act.sleepMs 1000, Act.capture (VncScreenshot.mk [5] 1 1),
       Act.sleepMs 1000, Act.capture (VncScreenshot.mk [7] 1 1),
       Act.sleepMs 1000] = rectBlocks pre ++
          [.sleepMs 1000, .capture s, .sleepMs 1000] ∧
      s.trim (VRect.mk 0 0 1 1) = some (.ok ts) ∧
      ts.hash = (VncScreenshot.mk [7] 1 1).hash ∧
      ∀ s2 ∈ pre, ∃ ts2, s2.trim (VRect.mk 0 0 1 1) = some (.ok ts2) ∧
        ts2.hash ≠ (VncScreenshot.mk [7] 1 1).hash :=
  C7_wait_screen_rect (VncScreenshot.mk [7] 1 1).hash (VRect.mk 0 0 1 1)
    ⟨1, 1, false, false,
      [[[], [VncEvent.putPixels (VRect.mk 0 0 1 1) [5]]],
       [[], [VncEvent.putPixels (VRect.mk 0 0 1 1) [7]]]], [99]⟩
    ⟨1, 1, false, false, [], [99]⟩
    [Act.sleepMs 1000, Act.capture (VncScreenshot.mk [5] 1 1),
     Act.sleepMs 1000, Act.capture (VncScreenshot.mk [7] 1 1),
     Act.sleepMs 1000]
    (by decide)

/-! ## Behaviour of the breakpoint and of one `boot_command` step -/

theorem handleBreakpoint_ok_facts :
    ∀ (stdin : List String) (cmd : VncCmd) (σ : Sess)
      (stdin2 : List String) (σ2 : Sess) (tr : List Act),
    handleBreakpoint cmd stdin σ = some (.ok (stdin2, σ2, tr)) →
    σ2.record = σ.record ∧ ∃ tr2, tr = .prompt cmd :: tr2 := by
  intro stdin
  induction stdin with
  | nil =>
    intro cmd σ stdin2 σ2 tr h
    cases h
  | cons line rest ih =>
    intro cmd σ stdin2 σ2 tr h
    simp only [handleBreakpoint] at h
    by_cases h1 : (splitWhitespace line).head? = some "c"
    · rw [if_pos h1] at h
      simp only [Option.some.injEq, Except.ok.injEq, Prod.mk.injEq] at h
      obtain ⟨-, hσ, htr⟩ := h
      exact ⟨by rw [← hσ], [], htr.symm⟩
    · rw [if_neg h1] at h
      by_cases h2 : (splitWhitespace line).head? = some "s"
      · rw [if_pos h2] at h
        rw [obind_ok_iff] at h
        obtain ⟨p, hcap, h⟩ := h
        rw [obind_ok_iff] at h
        obtain ⟨s, htrim, h⟩ := h
        rw [obind_ok_iff] at h
        obtain ⟨r, hrec, h⟩ := h
        simp only [Option.some.injEq, Except.ok.injEq, Prod.mk.injEq] at h
        obtain ⟨-, hσ, htr⟩ := h
        have hcapP : captureShot σ = some (.ok (p.1, p.2)) := by rw [hcap]
        have hflags := captureShot_ok_flags hcapP
        obtain ⟨hrecRec, -⟩ := ih cmd p.2 r.1 r.2.1 r.2.2 (by rw [hrec])
        refine ⟨?_, _, htr.symm⟩
        rw [← hσ, hrecRec, hflags.2.1]
      · rw [if_neg h2] at h
        by_cases h3 : (splitWhitespace line).head? = some "q"
        · rw [if_pos h3] at h
          simp only [Option.some.injEq, Except.ok.injEq, Prod.mk.injEq] at h
          obtain ⟨-, hσ, htr⟩ := h
          exact ⟨by rw [← hσ], [], htr.symm⟩
        · rw [if_neg h3] at h
          rw [obind_ok_iff] at h
          obtain ⟨r, hrec, h⟩ := h
          simp only [Option.some.injEq, Except.ok.injEq, Prod.mk.injEq] at h
          obtain ⟨-, hσ, htr⟩ := h
          obtain ⟨hrecRec, -⟩ := ih cmd σ r.1 r.2.1 r.2.2 (by rw [hrec])
          exact ⟨by rw [← hσ, hrecRec], _, htr.symm⟩

theorem recordShot_ok_facts {σ : Sess} {n : Nat} {σ2 : Sess} {tr : List Act}
    (h : recordShot σ n = some (.ok (σ2, tr))) :
    σ2.record = σ.record ∧ σ2.debug = σ.debug ∧
    (σ.record = true → ∃ s, tr = [.capture s,
        .png ("screenshots/" ++ toString n ++ ".png")]) ∧
    (σ.record = false → tr = []) := by
  unfold recordShot at h
  by_cases hr : σ.record = true
  · rw [if_pos hr] at h
    rw [obind_ok_iff] at h
    obtain ⟨p, hcap, h⟩ := h
    simp only [Option.some.injEq, Except.ok.injEq, Prod.mk.injEq] at h
    obtain ⟨hσ, htr⟩ := h
    have hcapP : captureShot σ = some (.ok (p.1, p.2)) := by rw [hcap]
    have hflags := captureShot_ok_flags hcapP
    refine ⟨by rw [← hσ]; exact hflags.2.1, by rw [← hσ]; exact hflags.1,
      fun _ => ⟨p.1, htr.symm⟩, fun hc => ?_⟩
    rw [hr] at hc
    cases hc
  · rw [if_neg hr] at h
    simp only [Option.some.injEq, Except.ok.injEq, Prod.mk.injEq] at h
    obtain ⟨hσ, htr⟩ := h
    exact ⟨by rw [← hσ], by rw [← hσ], fun hc => absurd hc hr,
      fun _ => htr.symm⟩

theorem execCmd_ok_facts {σ : Sess} {item : VncCmd} {σ2 : Sess}
    {tr : List Act} (h : execCmd σ item = some (.ok (σ2, tr))) :
    σ2.debug = σ.debug ∧ σ2.record = σ.record ∧ Benign tr := by
  cases item with
  | type text =>
    simp only [execCmd, Option.some.injEq, Except.ok.injEq,
      Prod.mk.injEq] at h
    obtain ⟨hσ, htr⟩ := h
    exact ⟨by rw [← hσ], by rw [← hσ],
      by rw [← htr]; exact benign_typeText text⟩
  | wait k =>
    simp only [execCmd, Option.some.injEq, Except.ok.injEq,
      Prod.mk.injEq] at h
    obtain ⟨hσ, htr⟩ := h
    refine ⟨by rw [← hσ], by rw [← hσ], ?_⟩
    rw [← htr]
    intro a ha
    simp at ha
    subst ha
    rfl
  | waitScreen target =>
    simp only [execCmd] at h
    rw [waitScreenRun] at h
    obtain ⟨hd, hr, pairs, j, s, htr, -, -, -, -⟩ :=
      waitScreenLoop_ok_shape _ target σ σ2 tr h
    refine ⟨hd, hr, ?_⟩
    rw [htr]
    refine benign_append (benign_pollBlocks pairs) ?_
    intro a ha
    simp at ha
    rcases ha with rfl | rfl | rfl <;> rfl
  | waitScreenRect target t l w ht =>
    simp only [execCmd] at h
    rw [waitScreenRectRun] at h
    obtain ⟨hd, hr, -, pre, s, ts, htr, -, -, -⟩ :=
      waitScreenRectLoop_ok_shape _ target (VRect.mk t l w ht) σ σ2 tr h
    refine ⟨hd, hr, ?_⟩
    rw [htr]
    refine benign_append (benign_rectBlocks pre) ?_
    intro a ha
    simp at ha
    rcases ha with rfl | rfl | rfl <;> rfl
  | enter =>
    simp only [execCmd, Option.some.injEq, Except.ok.injEq,
      Prod.mk.injEq] at h
    obtain ⟨hσ, htr⟩ := h
    refine ⟨by rw [← hσ], by rw [← hσ], ?_⟩
    rw [← htr]
    intro a ha
    simp at ha
    rcases ha with rfl | rfl <;> rfl
  | tab =>
    simp only [execCmd, Option.some.injEq, Except.ok.injEq,
      Prod.mk.injEq] at h
    obtain ⟨hσ, htr⟩ := h
    refine ⟨by rw [← hσ], by rw [← hσ], ?_⟩
    rw [← htr]
    intro a ha
    simp at ha
    rcases ha with rfl | rfl <;> rfl
  | spacebar =>
    simp only [execCmd, Option.some.injEq, Except.ok.injEq,
      Prod.mk.injEq] at h
    obtain ⟨hσ, htr⟩ := h
    refine ⟨by rw [← hσ], by rw [← hσ], ?_⟩
    rw [← htr]
    intro a ha
    simp at ha
    rcases ha with rfl | rfl <;> rfl
  | leftSuper =>
    simp only [execCmd, Option.some.injEq, Except.ok.injEq,
      Prod.mk.injEq] at h
    obtain ⟨hσ, htr⟩ := h
    refine ⟨by rw [← hσ], by rw [← hσ], ?_⟩
    rw [← htr]
    intro a ha
    simp at ha
    rcases ha with rfl | rfl <;> rfl

theorem execItem_ok_facts {σ : Sess} {stdin : List String} {n : Nat}
    {item : VncCmd} {σ4 : Sess} {stdin1 : List String} {tr : List Act}
    (h : execItem σ stdin n item = some (.ok (σ4, stdin1, tr))) :
    σ4.record = σ.record ∧
    (σ.record = true → ∃ tr2 s, tr = tr2 ++ [.capture s,
        .png ("screenshots/" ++ toString n ++ ".png")]) ∧
    (σ.debug = false →
      σ4.debug = false ∧ stdin1 = stdin ∧ PromptFree tr ∧
      (σ.record = true → pngPaths tr =
        ["screenshots/" ++ toString n ++ ".png"]) ∧
      (σ.record = false → pngPaths tr = [])) ∧
    (σ.debug = true → isPlainWait item = false →
      ∃ tr2, tr = .prompt item :: tr2) ∧
    (isPlainWait item = true → PromptFree tr) := by
  unfold execItem at h
  rw [obind_ok_iff] at h
  obtain ⟨r1, h1, h⟩ := h
  rw [obind_ok_iff] at h
  obtain ⟨r2, h2, h⟩ := h
  rw [obind_ok_iff] at h
  obtain ⟨r3, h3, h⟩ := h
  simp only [Option.some.injEq, Except.ok.injEq, Prod.mk.injEq] at h
  obtain ⟨hσ4, hstdin, htr⟩ := h
  have h2e : execCmd r1.2.1 item = some (.ok (r2.1, r2.2)) := by rw [h2]
  have hcmd := execCmd_ok_facts h2e
  have h3e : recordShot r2.1 n = some (.ok (r3.1, r3.2)) := by rw [h3]
  have hrs := recordShot_ok_facts h3e
  by_cases hc : (σ.debug && !(isPlainWait item)) = true
  · rw [if_pos hc] at h1
    obtain ⟨hbrec, tr2, htr2⟩ := handleBreakpoint_ok_facts stdin item σ
      r1.1 r1.2.1 r1.2.2 (by rw [h1])
    simp only [Bool.and_eq_true, Bool.not_eq_eq_eq_not, Bool.not_true] at hc
    have hdbg : σ.debug = true := hc.1
    have hwait : isPlainWait item = false := by
      have := hc.2
      cases hwi : isPlainWait item
      · rfl
      · rw [hwi] at this
        cases this
    have hrecchain : σ4.record = σ.record := by
      rw [← hσ4, hrs.1, hcmd.2.1, hbrec]
    refine ⟨hrecchain, ?_, ?_, ?_, ?_⟩
    · intro hrec
      have : r2.1.record = true := by rw [hcmd.2.1, hbrec]; exact hrec
      obtain ⟨s, hs⟩ := hrs.2.2.1 this
      exact ⟨r1.2.2 ++ r2.2, s, by rw [← htr, hs, List.append_assoc]⟩
    · intro hdf
      rw [hdf] at hdbg
      cases hdbg
    · intro _ _
      refine ⟨tr2 ++ r2.2 ++ r3.2, ?_⟩
      rw [← htr, htr2]
      simp
    · intro hwi
      rw [hwi] at hwait
      cases hwait
  · rw [if_neg hc] at h1
    simp only [Option.some.injEq, Except.ok.injEq, Prod.mk.injEq] at h1
    have hr11 : r1.1 = stdin := by rw [← h1]
    have hr121 : r1.2.1 = σ := by rw [← h1]
    have hr122 : r1.2.2 = ([] : List Act) := by rw [← h1]
    have hbenign2 : Benign r2.2 := hcmd.2.2
    have hrecchain : σ4.record = σ.record := by
      rw [← hσ4, hrs.1, hcmd.2.1, hr121]
    have hpf3 : PromptFree r3.2 := by
      intro c hcmem
      by_cases hrec : r2.1.record = true
      · obtain ⟨s, hs⟩ := hrs.2.2.1 hrec
        rw [hs] at hcmem
        simp at hcmem
      · rw [hrs.2.2.2 (by revert hrec; cases r2.1.record <;> simp)] at hcmem
        cases hcmem
    have htrPF : PromptFree tr := by
      rw [← htr, hr122]
      exact promptFree_append (promptFree_append (fun c hc2 => by cases hc2)
        (promptFree_of_benign hbenign2)) hpf3
    refine ⟨hrecchain, ?_, ?_, ?_, ?_⟩
    · intro hrec
      have : r2.1.record = true := by rw [hcmd.2.1, hr121]; exact hrec
      obtain ⟨s, hs⟩ := hrs.2.2.1 this
      exact ⟨r1.2.2 ++ r2.2, s, by rw [← htr, hs, List.append_assoc]⟩
    · intro hdf
      refine ⟨?_, by rw [← hstdin, hr11], htrPF, ?_, ?_⟩
      · rw [← hσ4, hrs.2.1, hcmd.1, hr121]
        exact hdf
      · intro hrec
        have hr2rec : r2.1.record = true := by
          rw [hcmd.2.1, hr121]; exact hrec
        obtain ⟨s, hs⟩ := hrs.2.2.1 hr2rec
        rw [← htr, hr122, hs]
        rw [List.nil_append, pngPaths_append, pngPaths_nil_of_benign hbenign2]
        rfl
      · intro hrec
        have hr2rec : r2.1.record = false := by
          rw [hcmd.2.1, hr121]; exact hrec
        rw [← htr, hr122, hrs.2.2.2 hr2rec]
        rw [List.nil_append, List.append_nil]
        exact pngPaths_nil_of_benign hbenign2
    · intro hdbg hwait
      rw [hdbg, hwait] at hc
      simp at hc
    · intro _
      exact htrPF

theorem runItems_ok_facts :
    ∀ (items : List VncCmd) (σ : Sess) (stdin : List String) (n : Nat)
      (σ2 : Sess) (stdin2 : List String) (tr : List Act),
    σ.debug = false →
    runItems σ stdin n items = some (.ok (σ2, stdin2, tr)) →
    σ2.debug = false ∧ σ2.record = σ.record ∧ PromptFree tr ∧
    (σ.record = true → pngPaths tr = (List.range items.length).map
      fun i => "screenshots/" ++ toString (n + i + 1) ++ ".png") ∧
    (σ.record = false → pngPaths tr = []) := by
  intro items
  induction items with
  | nil =>
    intro σ stdin n σ2 stdin2 tr hdbg h
    simp only [runItems, Option.some.injEq, Except.ok.injEq,
      Prod.mk.injEq] at h
    obtain ⟨hσ, -, htr⟩ := h
    refine ⟨by rw [← hσ]; exact hdbg, by rw [← hσ], ?_, ?_, ?_⟩
    · intro c hc
      rw [← htr] at hc
      cases hc
    · intro _
      rw [← htr]
      rfl
    · intro _
      rw [← htr]
      rfl
  | cons item restItems ih =>
    intro σ stdin n σ2 stdin2 tr hdbg h
    simp only [runItems] at h
    rw [obind_ok_iff] at h
    obtain ⟨r1, h1, h⟩ := h
    rw [obind_ok_iff] at h
    obtain ⟨r2, h2, h⟩ := h
    simp only [Option.some.injEq, Except.ok.injEq, Prod.mk.injEq] at h
    obtain ⟨hσ, hstdin, htr⟩ := h
    have h1e : execItem σ stdin (n + 1) item =
        some (.ok (r1.1, r1.2.1, r1.2.2)) := by rw [h1]
    obtain ⟨hrecEq, -, hfalse, -, -⟩ := execItem_ok_facts h1e
    obtain ⟨hd4, hstdin1, hpf1, hpngT, hpngF⟩ := hfalse hdbg
    obtain ⟨hd2, hr2, hpf2, hihT, hihF⟩ :=
      ih r1.1 r1.2.1 (n + 1) r2.1 r2.2.1 r2.2.2 hd4 (by rw [h2])
    refine ⟨by rw [← hσ]; exact hd2, by rw [← hσ, hr2, hrecEq], ?_, ?_, ?_⟩
    · rw [← htr]
      exact promptFree_append hpf1 hpf2
    · intro hrec
      rw [← htr, pngPaths_append, hpngT hrec, hihT (by rw [hrecEq]; exact hrec)]
      rw [List.length_cons, List.range_succ_eq_map]
      rw [List.map_cons, List.map_map]
      have hfun : ((fun i => "screenshots/" ++ toString (n + i + 1) ++ ".png")
          ∘ Nat.succ) = fun i => "screenshots/" ++ toString (n + 1 + i + 1) ++
            ".png" := by
        funext i
        simp only [Function.comp]
        rw [show n + Nat.succ i + 1 = n + 1 + i + 1 from by omega]
      rw [hfun]
      rw [show n + 0 + 1 = n + 1 from by omega]
      rfl
    · intro hrec
      rw [← htr, pngPaths_append, hpngF hrec,
        hihF (by rw [hrecEq]; exact hrec)]
      rfl

theorem runSteps_ok_facts :
    ∀ (steps : List (List VncCmd)) (σ : Sess) (stdin : List String)
      (n : Nat) (σ2 : Sess) (stdin2 : List String) (tr : List Act),
    σ.debug = false →
    runSteps σ stdin n steps = some (.ok (σ2, stdin2, tr)) →
    σ2.debug = false ∧ σ2.record = σ.record ∧ PromptFree tr ∧
    (σ.record = true → pngPaths tr =
      (List.range (steps.map List.length).sum).map
        fun i => "screenshots/" ++ toString (n + i + 1) ++ ".png") ∧
    (σ.record = false → pngPaths tr = []) := by
  intro steps
  induction steps with
  | nil =>
    intro σ stdin n σ2 stdin2 tr hdbg h
    simp only [runSteps, Option.some.injEq, Except.ok.injEq,
      Prod.mk.injEq] at h
    obtain ⟨hσ, -, htr⟩ := h
    refine ⟨by rw [← hσ]; exact hdbg, by rw [← hσ], ?_, ?_, ?_⟩
    · intro c hc
      rw [← htr] at hc
      cases hc
    · intro _
      rw [← htr]
      rfl
    · intro _
      rw [← htr]
      rfl
  | cons step restSteps ih =>
    intro σ stdin n σ2 stdin2 tr hdbg h
    simp only [runSteps] at h
    rw [obind_ok_iff] at h
    obtain ⟨r1, h1, h⟩ := h
    rw [obind_ok_iff] at h
    obtain ⟨r2, h2, h⟩ := h
    simp only [Option.some.injEq, Except.ok.injEq, Prod.mk.injEq] at h
    obtain ⟨hσ, hstdin, htr⟩ := h
    obtain ⟨hd1, hr1, hpf1, hpngT1, hpngF1⟩ :=
      runItems_ok_facts step σ stdin n r1.1 r1.2.1 r1.2.2 hdbg (by rw [h1])
    obtain ⟨hd2, hr2, hpf2, hihT, hihF⟩ :=
      ih r1.1 r1.2.1 (n + step.length) r2.1 r2.2.1 r2.2.2 hd1 (by rw [h2])
    refine ⟨by rw [← hσ]; exact hd2, by rw [← hσ, hr2, hr1], ?_, ?_, ?_⟩
    · rw [← htr]
      exact promptFree_append hpf1 hpf2
    · intro hrec
      rw [← htr, pngPaths_append, hpngT1 hrec,
        hihT (by rw [hr1]; exact hrec)]
      rw [List.map_cons, List.sum_cons, List.range_add, List.map_append,
        List.map_map]
      congr 1
      refine List.map_congr_left fun i _ => ?_
      simp only [Function.comp_apply]
      rw [show n + step.length + i + 1 = n + (step.length + i) + 1 from
        by omega]
    · intro hrec
      rw [← htr, pngPaths_append, hpngF1 hrec,
        hihF (by rw [hr1]; exact hrec)]
      rfl

/-- Claim C3: with `debug` set, every command that is not a plain `Wait`
suspends at the breakpoint prompt (its trace begins with the prompt) and
`Wait` commands never prompt; input `q` returns `Ok` — continuing, not
aborting, the run — with the debug flag cleared, so the remainder of a
run whose debug flag is off shows no further prompt; any line whose
first word is not `c`, `s` or `q` is ignored and the prompt repeats. -/
theorem C3_breakpoint_behaviour :
    (∀ (σ : Sess) (stdin : List String) (n : Nat) (item : VncCmd)
      (σ4 : Sess) (stdin1 : List String) (tr : List Act),
      σ.debug = true → isPlainWait item = false →
      execItem σ stdin n item = some (.ok (σ4, stdin1, tr)) →
      ∃ tr2, tr = .prompt item :: tr2) ∧
    (∀ (σ : Sess) (stdin : List String) (n k : Nat)
      (σ4 : Sess) (stdin1 : List String) (tr : List Act),
      execItem σ stdin n (.wait k) = some (.ok (σ4, stdin1, tr)) →
      PromptFree tr) ∧
    (∀ (cmd : VncCmd) (line : String) (rest : List String) (σ : Sess),
      (splitWhitespace line).head? = some "q" →
      handleBreakpoint cmd (line :: rest) σ =
        some (.ok (rest, { σ with debug := false }, [.prompt cmd]))) ∧
    (∀ (cmd : VncCmd) (line : String) (rest : List String) (σ : Sess),
      (splitWhitespace line).head? ≠ some "c" →
      (splitWhitespace line).head? ≠ some "s" →
      (splitWhitespace line).head? ≠ some "q" →
      handleBreakpoint cmd (line :: rest) σ =
        obind (handleBreakpoint cmd rest σ) fun r =>
          some (.ok (r.1, r.2.1, .prompt cmd :: r.2.2))) ∧
    (∀ (σ : Sess) (stdin : List String) (cmds : List (List VncCmd))
      (σ2 : Sess) (stdin2 : List String) (tr : List Act),
      σ.debug = false →
      bootCommand σ stdin cmds = some (.ok (σ2, stdin2, tr)) →
      PromptFree tr ∧ σ2.debug = false) := by
  refine ⟨?_, ?_, ?_, ?_, ?_⟩
  · intro σ stdin n item σ4 stdin1 tr hd hw h
    exact (execItem_ok_facts h).2.2.2.1 hd hw
  · intro σ stdin n k σ4 stdin1 tr h
    exact (execItem_ok_facts h).2.2.2.2 rfl
  · intro cmd line rest σ hq
    simp only [handleBreakpoint]
    rw [if_neg (by rw [hq]; simp), if_neg (by rw [hq]; simp), if_pos hq]
  · intro cmd line rest σ h1 h2 h3
    simp only [handleBreakpoint]
    rw [if_neg h1, if_neg h2, if_neg h3]
  · intro σ stdin cmds σ2 stdin2 tr hd h
    obtain ⟨hd2, -, hpf, -, -⟩ :=
      runSteps_ok_facts cmds σ stdin 0 σ2 stdin2 tr hd h
    exact ⟨hpf, hd2⟩

/-- Claim C3, witness: concrete breakpoint interactions. -/
theorem C3_witness :
    (∃ tr2, [Act.prompt VncCmd.enter, Act.key true 0xff0d,
        Act.key false 0xff0d] = Act.prompt VncCmd.enter :: tr2) ∧
    PromptFree [Act.sleepMs 0] ∧
    handleBreakpoint VncCmd.enter ["q"] ⟨1, 1, true, false, [], []⟩ =
      some (.ok ([],
        { (⟨1, 1, true, false, [], []⟩ : Sess) with debug := false },
        [Act.prompt VncCmd.enter])) ∧
    handleBreakpoint VncCmd.enter ["zzz"] ⟨1, 1, true, false, [], []⟩ =
      obind (handleBreakpoint VncCmd.enter [] ⟨1, 1, true, false, [], []⟩)
        (fun r => some (.ok (r.1, r.2.1,
          Act.prompt VncCmd.enter :: r.2.2))) ∧
    (PromptFree [Act.key true 0xff0d, Act.key false 0xff0d] ∧
      (⟨1, 1, false, false, [], []⟩ : Sess).debug = false) :=
  ⟨C3_breakpoint_behaviour.1 ⟨1, 1, true, false, [], []⟩ ["c"] 1
      VncCmd.enter ⟨1, 1, true, false, [], []⟩ []
      [Act.prompt VncCmd.enter, Act.key true 0xff0d, Act.key false 0xff0d]
      rfl rfl (by decide),
    C3_breakpoint_behaviour.2.1 ⟨1, 1, true, false, [], []⟩ [] 1 0
      ⟨1, 1, true, false, [], []⟩ [] [Act.sleepMs 0] (by decide),
    C3_breakpoint_behaviour.2.2.1 VncCmd.enter "q" []
      ⟨1, 1, true, false, [], []⟩ (by decide),
    C3_breakpoint_behaviour.2.2.2.1 VncCmd.enter "zzz" []
      ⟨1, 1, true, false, [], []⟩ (by decide) (by decide) (by decide),
    C3_breakpoint_behaviour.2.2.2.2 ⟨1, 1, false, false, [], []⟩ []
      [[VncCmd.enter]] ⟨1, 1, false, false, [], []⟩ []
      [Act.key true 0xff0d, Act.key false 0xff0d] rfl (by decide)⟩

/-- Claim C4: after every command of a `boot_command` run with `record`
set, a full frame is captured and written as a PNG named by the 1-based
step counter — the per-command trace ends with that capture and write,
whatever the command kind; a run with `debug = false` and
`record = true` writes exactly the PNGs `screenshots/1.png`, …,
`screenshots/N.png` for `N` the total command count; and a run with
`debug = false` and `record = false` writes no PNG at all. -/
theorem C4_record_pngs :
    (∀ (σ : Sess) (stdin : List String) (n : Nat) (item : VncCmd)
      (σ4 : Sess) (stdin1 : List String) (tr : List Act),
      σ.record = true →
      execItem σ stdin n item = some (.ok (σ4, stdin1, tr)) →
      ∃ tr2 s, tr = tr2 ++ [.capture s,
        .png ("screenshots/" ++ toString n ++ ".png")]) ∧
    (∀ (σ : Sess) (stdin : List String) (cmds : List (List VncCmd))
      (σ2 : Sess) (stdin2 : List String) (tr : List Act),
      σ.debug = false → σ.record = true →
      bootCommand σ stdin cmds = some (.ok (σ2, stdin2, tr)) →
      pngPaths tr = (List.range (cmds.map List.length).sum).map
        fun i => "screenshots/" ++ toString (i + 1) ++ ".png") ∧
    (∀ (σ : Sess) (stdin : List String) (cmds : List (List VncCmd))
      (σ2 : Sess) (stdin2 : List String) (tr : List Act),
      σ.debug = false → σ.record = false →
      bootCommand σ stdin cmds = some (.ok (σ2, stdin2, tr)) →
      pngPaths tr = []) := by
  refine ⟨?_, ?_, ?_⟩
  · intro σ stdin n item σ4 stdin1 tr hrec h
    exact (execItem_ok_facts h).2.1 hrec
  · intro σ stdin cmds σ2 stdin2 tr hd hrec h
    obtain ⟨-, -, -, hpng, -⟩ :=
      runSteps_ok_facts cmds σ stdin 0 σ2 stdin2 tr hd h
    rw [hpng hrec]
    simp only [Nat.zero_add]
  · intro σ stdin cmds σ2 stdin2 tr hd hrec h
    obtain ⟨-, -, -, -, hpng⟩ :=
      runSteps_ok_facts cmds σ stdin 0 σ2 stdin2 tr hd h
    exact hpng hrec

/-- Claim C4, witness: a one-command recorded run and a two-step
unrecorded run. -/
theorem C4_witness :
    (∃ tr2 s, [Act.key true 0xff0d, Act.key false 0xff0d,
        Act.capture (VncScreenshot.mk [7] 1 1), Act.png "screenshots/1.png"]
        = tr2 ++ [.capture s, .png ("screenshots/" ++ toString 1 ++ ".png")]) ∧
    pngPaths [Act.key true 0xff0d, Act.key false 0xff0d,
        Act.capture (VncScreenshot.mk [7] 1 1), Act.png "screenshots/1.png"]
      = (List.range ([[VncCmd.enter]].map List.length).sum).map
        (fun i => "screenshots/" ++ toString (i + 1) ++ ".png") ∧
    pngPaths [Act.key true 0xff0d, Act.key false 0xff0d, Act.sleepMs 2000,
        Act.key true 0xff09, Act.key false 0xff09] = [] :=
  ⟨C4_record_pngs.1 ⟨1, 1, false, true,
      [[[], [VncEvent.putPixels (VRect.mk 0 0 1 1) [7]]]], []⟩ [] 1
      VncCmd.enter ⟨1, 1, false, true, [], []⟩ []
      [Act.key true 0xff0d, Act.key false 0xff0d,
        Act.capture (VncScreenshot.mk [7] 1 1), Act.png "screenshots/1.png"]
      rfl (by decide),
    C4_record_pngs.2.1 ⟨1, 1, false, true,
      [[[], [VncEvent.putPixels (VRect.mk 0 0 1 1) [7]]]], []⟩ []
      [[VncCmd.enter]] ⟨1, 1, false, true, [], []⟩ []
      [Act.key true 0xff0d, Act.key false 0xff0d,
        Act.capture (VncScreenshot.mk [7] 1 1), Act.png "screenshots/1.png"]
      rfl rfl (by decide),
    C4_record_pngs.2.2 ⟨1, 1, false, false, [], []⟩ []
      [[VncCmd.enter, VncCmd.wait 2], [VncCmd.tab]]
      ⟨1, 1, false, false, [], []⟩ []
      [Act.key true 0xff0d, Act.key false 0xff0d, Act.sleepMs 2000,
        Act.key true 0xff09, Act.key false 0xff09]
      rfl rfl (by decide)⟩
